import Mathlib

/-!
Verification of the `fohlcv` utility (fetch → normalize → validate → save of
TOHLCV market bars) against its natural-language specification.

The Python sources are shallowly embedded:

* A pandas `DataFrame` becomes `DataFrame`: an association list from column
  names to columns; a column is a `List (Option Cell)` where `none` models a
  missing value (NaN/NaT) and `Cell` is either a number or a timestamp
  (an instant together with a timezone-awareness flag).
* Exceptions become `Except PyError _`; `PyError` distinguishes the
  `ValueError` / `RuntimeError` / `OverflowError` classes the code raises.
* Side effects that do not influence any verified property (directory
  creation, console output, the actual bytes written to disk) are dropped;
  `save_df` returns the format it writes instead of writing it.
-/

/-- Python exception classes raised by the embedded code. -/
inductive PyError where
  | valueError (msg : String)
  | runtimeError (msg : String)
  | overflowError (msg : String)
deriving DecidableEq, Repr

/-- A scalar cell of a pandas column: a number, or a timestamp given by an
instant and a timezone-awareness flag. -/
inductive Cell where
  | num (x : Int)
  | ts (v : Int) (aware : Bool)
deriving DecidableEq, Repr

/-- A pandas DataFrame: named columns of optional cells (`none` = NaN/NaT). -/
structure DataFrame where
  cols : List (String × List (Option Cell))
deriving DecidableEq, Repr

/-- Column labels of the frame, in order (`df.columns`). -/
def DataFrame.columnNames (df : DataFrame) : List String :=
  df.cols.map Prod.fst

/-- Column lookup `df[c]` (first matching label; `[]` when absent). -/
def DataFrame.col (df : DataFrame) (c : String) : List (Option Cell) :=
  match df.cols.find? (fun p => p.1 == c) with
  | some p => p.2
  | none => []

/-- Number of rows, read off the first column (pandas frames are rectangular,
so every column has this length). -/
def DataFrame.nrows (df : DataFrame) : Nat :=
  match df.cols with
  | [] => 0
  | p :: _ => p.2.length

/-- Embeds `df.empty`: true when either axis has length zero. -/
def DataFrame.isEmpty (df : DataFrame) : Bool :=
  df.cols.isEmpty || df.nrows == 0

/-- Pandas `≤` on cells: numbers compare numerically; timestamps compare by
instant when their awareness agrees; comparing a tz-aware with a tz-naive
timestamp, or a timestamp with a number, raises in pandas, which the
monotonicity probe reports as `False` — hence `false` here. -/
def cellLE : Cell → Cell → Bool
  | .num a, .num b => a ≤ b
  | .ts v a, .ts w b => if a = b then v ≤ w else false
  | _, _ => false

/-- Strict counterpart of `cellLE`. -/
def cellLT : Cell → Cell → Bool
  | .num a, .num b => a < b
  | .ts v a, .ts w b => if a = b then v < w else false
  | _, _ => false

/-- Lifts `cellLE` to optional cells; any NaN makes the comparison fail,
as it does for pandas `is_monotonic_increasing`. -/
def cmpOptLE : Option Cell → Option Cell → Bool
  | some a, some b => cellLE a b
  | _, _ => false

/-- Lifts `cellLT` to optional cells (NaN compares as false). -/
def cmpOptLT : Option Cell → Option Cell → Bool
  | some a, some b => cellLT a b
  | _, _ => false

/-- Embeds `Series.is_monotonic_increasing`: adjacent pairs must compare
`≤`; a NaN anywhere (including a singleton NaN) yields `false`. -/
def chainLE : List (Option Cell) → Bool
  | [] => true
  | [x] => x.isSome
  | x :: y :: rest => cmpOptLE x y && chainLE (y :: rest)

/-- Embeds `Series.isna().any()`. -/
def hasNaN (xs : List (Option Cell)) : Bool :=
  xs.any (fun v => v.isNone)

/-- Embeds `Series.isna().all()`. -/
def allNaN (xs : List (Option Cell)) : Bool :=
  xs.all (fun v => v.isNone)

/-- Helper for `dupCount`: counts elements equal to some earlier element,
the earlier elements seen so far being threaded through `seen`. -/
def dupCountAux : List (Option Cell) → List (Option Cell) → Nat
  | _, [] => 0
  | seen, x :: rest =>
      (if x ∈ seen then 1 else 0) + dupCountAux (x :: seen) rest

/-- Embeds `Series.duplicated().sum()`: the number of entries that already
occurred earlier in the series (pandas marks every occurrence after the
first, and NaN duplicates NaN). -/
def dupCount (xs : List (Option Cell)) : Nat :=
  dupCountAux [] xs

/-- Required columns of the output schema (`REQUIRED_COLS` in validate.py). -/
def REQUIRED_COLS : List String := ["time", "open", "high", "low", "close", "volume"]

/-- The four price columns checked for being entirely NaN. -/
def OHLC_COLS : List String := ["open", "high", "low", "close"]

/-- Embeds `validate_tohlcv` (validate.py): raises `ValueError` on the first
failed invariant, in source order, and returns `None` (here `.ok ()`)
otherwise.  The function never modifies its argument. -/
def validate_tohlcv (df : DataFrame) : Except PyError Unit :=
  if REQUIRED_COLS.any (fun c => !(df.columnNames.contains c)) then
    .error (.valueError "Faltan columnas")
  else if df.isEmpty then
    .error (.valueError "DataFrame vacío")
  else if hasNaN (df.col "time") then
    .error (.valueError "Hay NaNs en time")
  else if dupCount (df.col "time") != 0 then
    .error (.valueError "Hay timestamps duplicados")
  else if !(chainLE (df.col "time")) then
    .error (.valueError "time no está ordenado ascendente")
  else if OHLC_COLS.any (fun c => allNaN (df.col c)) then
    .error (.valueError "Columna viene toda NaN")
  else
    .ok ()

/-! Dates (cli.py functions `_parse_date_yyyy_mm_dd` and `_fix_same_day_range`).

The function `_fix_same_day_range` is embedded with the library parser
abstracted: `fix_same_day_range_with parse` takes the behaviour of
`isoparse(s).date()` as a parameter (`none` models any exception), because
`dateutil.isoparse` accepts general ISO-8601 strings and only the
conditional structure around it is repository code.  The C1 theorem is
proved uniformly in `parse`, so it holds for the real library parser; the
concrete model `isoparseDate` below reproduces `isoparse` on the fragment
that the counterexample and witness evaluate.
`strftime("%Y-%m-%d")` is modelled with the year zero-padded to four
digits. -/

/-- A calendar date. -/
structure Date where
  year : Nat
  month : Nat
  day : Nat
deriving DecidableEq, Repr

/-- Gregorian leap-year rule. -/
def isLeap (y : Nat) : Bool :=
  (y % 4 == 0 && y % 100 != 0) || y % 400 == 0

/-- Number of days in a month. -/
def daysInMonth (y m : Nat) : Nat :=
  if m == 2 then (if isLeap y then 29 else 28)
  else if m == 4 || m == 6 || m == 9 || m == 11 then 30
  else 31

/-- Decimal digit value of a character, `none` for non-digits. -/
def digitVal (c : Char) : Option Nat :=
  if '0' ≤ c ∧ c ≤ '9' then some (c.toNat - '0'.toNat) else none

/-- Written from the claim's words, not the source: the literal reading of
"parses as a YYYY-MM-DD date" — exactly ten characters, four digits, dash,
two digits, dash, two digits, denoting a valid calendar day with year at
least 1 (`datetime.MINYEAR`).  Used only to state the counterexample for
C1; the source's parser (`isoparse`) accepts strictly more strings. -/
def parseDateYMD (s : String) : Option Date :=
  match s.data with
  | [y1, y2, y3, y4, c1, m1, m2, c2, d1, d2] =>
    if c1 = '-' ∧ c2 = '-' then
      match digitVal y1, digitVal y2, digitVal y3, digitVal y4,
            digitVal m1, digitVal m2, digitVal d1, digitVal d2 with
      | some a, some b, some c, some d, some e, some f, some g, some h =>
        let y := 1000 * a + 100 * b + 10 * c + d
        let m := 10 * e + f
        let dd := 10 * g + h
        if 1 ≤ y ∧ 1 ≤ m ∧ m ≤ 12 ∧ 1 ≤ dd ∧ dd ≤ daysInMonth y m then
          some ⟨y, m, dd⟩
        else none
      | _, _, _, _, _, _, _, _ => none
    else none
  | _ => none

/-- Embeds `d + timedelta(days=1)`: the next calendar day, or `none` when the
result would exceed `datetime.MAXYEAR` (9999), where Python raises
`OverflowError: date value out of range`. -/
def nextDate (d : Date) : Option Date :=
  if d.day < daysInMonth d.year d.month then some ⟨d.year, d.month, d.day + 1⟩
  else if d.month < 12 then some ⟨d.year, d.month + 1, 1⟩
  else if d.year < 9999 then some ⟨d.year + 1, 1, 1⟩
  else none

/-- Zero-pads the decimal representation of `n` to at least `k` digits. -/
def padNat (k n : Nat) : String :=
  let s := toString n
  if s.length < k then String.mk (List.replicate (k - s.length) '0') ++ s
  else s

/-- Embeds `strftime("%Y-%m-%d")` (year zero-padded to four digits). -/
def formatDate (d : Date) : String :=
  padNat 4 d.year ++ "-" ++ padNat 2 d.month ++ "-" ++ padNat 2 d.day

/-- Python truthiness of an optional string: `None` and `""` are falsy. -/
def pyFalsy (s : Option String) : Bool :=
  match s with
  | none => true
  | some str => str.isEmpty

/-- The warning message built by `_fix_same_day_range`. -/
def sameDayWarn (e newEnd : String) : String :=
  "Rango de 1 solo día detectado (start=end=" ++ e ++
  "). En Yahoo 'end' es exclusivo → ajusto end a " ++ newEnd ++ "."

/-- Embeds `_fix_same_day_range` (cli.py) with the library date parser as a
parameter (`parse s = none` models `isoparse(s)` raising): when both bounds
are truthy, both parse, and they denote the same day, the end is advanced
one day and a warning is produced; parse failures are swallowed by the
`try` block and leave the pair unchanged; the `timedelta` addition sits
outside the `try`, so its `OverflowError` propagates (modelled as
`.error`). -/
def fix_same_day_range_with (parse : String → Option Date)
    (start end_ : Option String) :
    Except PyError (Option String × Option String × Option String) :=
  if pyFalsy start || pyFalsy end_ then .ok (start, end_, none)
  else
    match start, end_ with
    | some ss, some es =>
      match parse ss, parse es with
      | some ds, some de =>
        if ds = de then
          match nextDate de with
          | some d2 => .ok (start, some (formatDate d2), some (sameDayWarn es (formatDate d2)))
          | none => .error (.overflowError "date value out of range")
        else .ok (start, end_, none)
      | _, _ => .ok (start, end_, none)
    | _, _ => .ok (start, end_, none)

/-- The exact condition under which `_fix_same_day_range` rewrites the end:
both bounds truthy, both accepted by the parser, and denoting the same
calendar day. -/
def sameDayOfWith (parse : String → Option Date)
    (start end_ : Option String) : Option Date :=
  if pyFalsy start || pyFalsy end_ then none
  else
    match start, end_ with
    | some ss, some es =>
      match parse ss, parse es with
      | some ds, some de => if ds = de then some ds else none
      | _, _ => none
    | _, _ => none

/-- Embeds Python `int()` on a sliced string: a non-empty run of decimal
digits (the tolerance of `int()` for signs, surrounding whitespace and
underscores is outside the modelled fragment and yields `none`). -/
def readDigits (l : List Char) : Option Nat :=
  if l.isEmpty then none
  else l.foldl (fun acc c =>
    match acc, digitVal c with
    | some n, some v => some (n * 10 + v)
    | _, _ => none) (some 0)

/-- Validity check performed by the `datetime` constructor on a date:
year within `MINYEAR..MAXYEAR`, month 1..12, day within the month. -/
def validDate (y m d : Nat) : Bool :=
  1 ≤ y && y ≤ 9999 && 1 ≤ m && m ≤ 12 && 1 ≤ d && d ≤ daysInMonth y m

/-- Embeds `isoparser._parse_isodate_common`: a four-digit year, then
either nothing (month and day default to 1), `-MM` (day defaults to 1),
`-MM-DD`, or `MMDD` with no separators; returns the components and the
unconsumed remainder (a possible time part).  The uncommon ISO week and
ordinal date formats the source falls back to are outside the modelled
fragment. -/
def parseCommonDate : List Char → Option ((Nat × Nat × Nat) × List Char)
  | y1 :: y2 :: y3 :: y4 :: rest =>
    match readDigits [y1, y2, y3, y4] with
    | none => none
    | some y =>
      match rest with
      | [] => some ((y, 1, 1), [])
      | '-' :: rest1 =>
        match rest1 with
        | m1 :: m2 :: rest2 =>
          match readDigits [m1, m2] with
          | none => none
          | some m =>
            match rest2 with
            | [] => some ((y, m, 1), [])
            | '-' :: d1 :: d2 :: rest3 =>
              match readDigits [d1, d2] with
              | none => none
              | some d => some ((y, m, d), rest3)
            | _ => none
        | _ => none
      | m1 :: m2 :: rest2 =>
        match readDigits [m1, m2] with
        | none => none
        | some m =>
          match rest2 with
          | [] => none
          | d1 :: d2 :: rest3 =>
            match readDigits [d1, d2] with
            | none => none
            | some d => some ((y, m, d), rest3)
          | _ => none
      | _ => none
  | _ => none

/-- Embeds `isoparser._parse_isotime` on the colon-separated fragment:
`hh`, `hh:mm` or `hh:mm:ss`, each component two digits and consuming the
whole remainder (fractional seconds, timezone designators and the
separator-free `hhmm`/`hhmmss` forms are outside the modelled fragment). -/
def parseTimeHMS : List Char → Option (Nat × Nat × Nat)
  | [h1, h2] =>
    match readDigits [h1, h2] with
    | some hh => some (hh, 0, 0)
    | none => none
  | [h1, h2, ':', m1, m2] =>
    match readDigits [h1, h2], readDigits [m1, m2] with
    | some hh, some mm => some (hh, mm, 0)
    | _, _ => none
  | [h1, h2, ':', m1, m2, ':', s1, s2] =>
    match readDigits [h1, h2], readDigits [m1, m2], readDigits [s1, s2] with
    | some hh, some mm, some ss => some (hh, mm, ss)
    | _, _, _ => none
  | _ => none

/-- Models `dateutil.isoparse(s).date()` on a fragment of its domain: a
common-format ISO date (`YYYY`, `YYYY-MM`, `YYYY-MM-DD`, `YYYYMMDD`),
optionally followed by a single date/time separator character and a
colon-separated time; hour 24 with
zero minutes and seconds denotes midnight of the NEXT day, as in the
source (`components[3] == 24` adds `timedelta(days=1)`, whose overflow at
9999-12-31T24:00 is swallowed by cli.py's `try`); components are validated
as the `datetime` constructor does.  Strings outside the fragment (ISO
week and ordinal dates, fractions, timezone designators, separator-free
times, `int()`'s sign/space/underscore tolerance) map to `none`; no
theorem below quantifies over this model — it only evaluates the
counterexample's and witness's concrete strings, on which it agrees with
the library. -/
def isoparseDate (s : String) : Option Date :=
  match parseCommonDate s.data with
  | none => none
  | some ((y, m, d), rest) =>
    if !validDate y m d then none
    else
      match rest with
      | [] => some ⟨y, m, d⟩
      | _ :: timePart =>
        match parseTimeHMS timePart with
        | none => none
        | some (hh, mm, ss) =>
          if hh == 24 then
            if mm == 0 && ss == 0 then nextDate ⟨y, m, d⟩ else none
          else if hh ≤ 23 && mm ≤ 59 && ss ≤ 59 then some ⟨y, m, d⟩
          else none

/-- Embeds `_fix_same_day_range` (cli.py) with the parser instantiated to
the modelled fragment of `isoparse` (used for concrete evaluation). -/
def fix_same_day_range (start end_ : Option String) :
    Except PyError (Option String × Option String × Option String) :=
  fix_same_day_range_with isoparseDate start end_

/-! Sanitizer and output path (io.py functions `_sanitize_token` and
`build_outpath_fixed`).  Strings are processed as character lists.  Paths
are modelled as their component lists; directory creation is a side effect
with no bearing on the returned path and is dropped. -/

/-- Membership in the regex class `[A-Za-z0-9]`. -/
def isAlnumAscii (c : Char) : Bool :=
  ('A' ≤ c && c ≤ 'Z') || ('a' ≤ c && c ≤ 'z') || ('0' ≤ c && c ≤ '9')

/-- Membership in the regex class `[^A-Za-z0-9]`. -/
def nonAlnum (c : Char) : Bool := !isAlnumAscii c

/-- Whether a character is an underscore. -/
def isUnder (c : Char) : Bool := c == '_'

/-- Replaces every maximal run of characters satisfying `p` by the single
character `r` (the regex substitution `p+ → r`); `inRun` records whether the
previous character belonged to a run. -/
def subRunsAux (p : Char → Bool) (r : Char) : Bool → List Char → List Char
  | _, [] => []
  | inRun, c :: cs =>
      if p c then
        if inRun then subRunsAux p r true cs
        else r :: subRunsAux p r true cs
      else c :: subRunsAux p r false cs

/-- Regex substitution of maximal `p`-runs by `r`, starting outside a run. -/
def subRuns (p : Char → Bool) (r : Char) (l : List Char) : List Char :=
  subRunsAux p r false l

/-- State of a run scan after a list: whether its last character satisfied
`p` (used to split a substitution across an append). -/
def runState (p : Char → Bool) : Bool → List Char → Bool
  | b, [] => b
  | _, c :: cs => runState p (p c) cs

/-- Embeds Python `str.strip()` on both ends for a character predicate. -/
def stripEnds (p : Char → Bool) (l : List Char) : List Char :=
  (((l.dropWhile p).reverse.dropWhile p).reverse)

/-- Embeds `_sanitize_token` (io.py): strip whitespace, substitute
`[^A-Za-z0-9]+` by `_`, substitute `_+` by `_`, strip `_` from both ends,
and fall back to `"NA"` when nothing remains. -/
def sanitize_token (s : String) : String :=
  let s1 := stripEnds Char.isWhitespace s.data
  let s2 := subRuns nonAlnum '_' s1
  let s3 := stripEnds isUnder (subRuns isUnder '_' s2)
  if s3.isEmpty then "NA" else String.mk s3

/-- Modelled from the spec: the sanitizer as the claim describes it —
"replaces every maximal run of non-alphanumeric characters by a single
underscore, strips leading and trailing underscores, and yields a fixed
fallback token when nothing alphanumeric remains". -/
def sanitizeSpec (s : String) : String :=
  let t := stripEnds isUnder (subRuns nonAlnum '_' s.data)
  if t.isEmpty then "NA" else String.mk t

/-- The hard-coded data root of io.py, as a single path component. -/
def FIXED_DATA_ROOT : List String :=
  [r"C:\Users\axier\Desktop\CARPETA PROGRAMACION\quant_trading_system\data"]

/-- Embeds `build_outpath_fixed` (io.py): the path
`data_root/<ticker'>/tohlcv/<interval'>/<start'>_<end'><ext>` with every tag
run through `sanitize_token` (the `mkdir` side effect is dropped). -/
def build_outpath_fixed (ticker interval start_tag end_tag : String)
    (ext : String) (data_root : List String) : List String :=
  let safe_ticker := sanitize_token ticker
  let safe_interval := sanitize_token interval
  let safe_start := sanitize_token start_tag
  let safe_end := sanitize_token end_tag
  data_root ++ [safe_ticker, "tohlcv", safe_interval,
    safe_start ++ "_" ++ safe_end ++ ext]

/-! Saving (io.py function `save_df`).  The dispatch on `path.suffix.lower()`
is embedded; the actual serialization is replaced by returning which format
would be written. -/

/-- The format `save_df` writes. -/
inductive SaveFormat where
  | parquet
  | csv
deriving DecidableEq, Repr

/-- Index of the last `'.'` in a character list, if any. -/
def lastDotIdx (l : List Char) : Option Nat :=
  match (l.reverse.findIdx? (fun c => c == '.')) with
  | some j => some (l.length - 1 - j)
  | none => none

/-- Embeds Python `str.lower()` (character-wise lowercasing; the suffixes
compared against are ASCII). -/
def lowerStr (s : String) : String := String.mk (s.data.map Char.toLower)

/-- Embeds `pathlib.PurePath.suffix` on a path's final component: the
substring from the last dot on, unless that dot is the first or the last
character of the name, in which case the suffix is empty. -/
def pySuffix (name : String) : String :=
  match lastDotIdx name.data with
  | none => ""
  | some i =>
      if 0 < i ∧ i < name.data.length - 1 then String.mk (name.data.drop i)
      else ""

/-- Embeds `save_df` (io.py): dispatch on the lowercased suffix of the
path's final component; unsupported extensions raise `ValueError` and
nothing is written. -/
def save_df (path : List String) : Except PyError SaveFormat :=
  let name := (path.getLast?).getD ""
  if lowerStr (pySuffix name) == ".parquet" then .ok .parquet
  else if lowerStr (pySuffix name) == ".csv" then .ok .csv
  else .error (.valueError "Extensión no soportada")

/-! Fetching (yahoo.py function `fetch_tohlcv_yahoo`).  The network call
`yf.download` is external; the provider's response is therefore a parameter
(`none` models `df is None`).  A response frame carries a `DatetimeIndex`
(a list of instants plus one index-level timezone flag, as in pandas) and
either a flat column index or a two-level one keyed `(price field, ticker)`.
Downstream of the download the embedding follows yahoo.py step by step. -/

/-- The whitespace class of Python `str.strip()`/`str.isspace()`: the
Unicode whitespace characters U+0009..U+000D, U+001C..U+001F, U+0020,
U+0085, U+00A0, U+1680, U+2000..U+200A, U+2028, U+2029, U+202F, U+205F
and U+3000. -/
def pyIsSpace (c : Char) : Bool :=
  c == ' ' || c == '\t' || c == '\n' || c == '\x0b' || c == '\x0c' ||
  c == '\r' || c == '\x1c' || c == '\x1d' || c == '\x1e' || c == '\x1f' ||
  c == '\x85' || c == '\xa0' || c == '\u1680' ||
  ('\u2000' ≤ c && c ≤ '\u200a') ||
  c == '\u2028' || c == '\u2029' || c == '\u202f' || c == '\u205f' ||
  c == '\u3000'

/-- Embeds `ticker.strip()`: the ticker with surrounding Unicode whitespace
removed; it is empty exactly when the argument is empty or whitespace. -/
def strippedTicker (s : String) : String :=
  String.mk (stripEnds pyIsSpace s.data)

/-- Column axis of a provider response: flat, or a two-level MultiIndex
whose last level is the ticker. -/
inductive RawCols where
  | flat (cs : List (String × List (Option Cell)))
  | multi (cs : List ((String × String) × List (Option Cell)))
deriving DecidableEq, Repr

/-- A provider response frame. -/
structure RawFrame where
  indexTz : Bool
  index : List Int
  rcols : RawCols
deriving DecidableEq, Repr

/-- Embeds `df.empty` for a response frame: no rows or no columns. -/
def RawFrame.isEmpty (rf : RawFrame) : Bool :=
  rf.index.isEmpty ||
  (match rf.rcols with
   | .flat cs => cs.isEmpty
   | .multi cs => cs.isEmpty)

/-- The values of the last column level (`df.columns.get_level_values(-1)`). -/
def lastLevel (cs : List ((String × String) × List (Option Cell))) : List String :=
  cs.map (fun p => p.1.2)

/-- Embeds `df.xs(key, axis=1, level=-1)`: keep the columns whose last level
equals `key` and drop that level. -/
def xsLast (key : String) (cs : List ((String × String) × List (Option Cell))) :
    List (String × List (Option Cell)) :=
  (cs.filter (fun p => p.1.2 == key)).map (fun p => (p.1.1, p.2))

/-- Embeds the MultiIndex branch of yahoo.py: select the requested ticker's
columns when that ticker occurs in the last level, otherwise fall back to
the first ticker listed there. -/
def flattenMulti (ticker : String) (cs : List ((String × String) × List (Option Cell))) :
    List (String × List (Option Cell)) :=
  if (lastLevel cs).contains ticker then xsLast ticker cs
  else
    match lastLevel cs with
    | [] => []
    | t0 :: _ => xsLast t0 cs

/-- Modelled from the spec: the column reduction as claim C5 states it —
the columns are always reduced to those of the single requested ticker. -/
def selectRequested (ticker : String)
    (cs : List ((String × String) × List (Option Cell))) :
    List (String × List (Option Cell)) :=
  xsLast ticker cs

/-- The column renaming of yahoo.py (`df.rename(columns=...)`). -/
def renameCol (c : String) : String :=
  if c == "Open" then "open"
  else if c == "High" then "high"
  else if c == "Low" then "low"
  else if c == "Close" then "close"
  else if c == "Adj Close" then "adj_close"
  else if c == "Volume" then "volume"
  else c

/-- Embeds the index normalization of yahoo.py: a tz-naive index is
localized to UTC (its clock readings become UTC instants), a tz-aware one
is converted to UTC (same instants); either way every resulting timestamp
is tz-aware. -/
def normalizeIndexUTC (tz : Bool) (idx : List Int) : List Cell :=
  if tz then idx.map (fun v => Cell.ts v true)
  else idx.map (fun v => Cell.ts v true)

/-- Embeds `pd.to_numeric(·, errors="coerce")` on a cell: numbers pass
through, anything non-numeric becomes NaN. -/
def toNumericCoerce (v : Option Cell) : Option Cell :=
  match v with
  | some (.num x) => some (.num x)
  | _ => none

/-- Sort key used by `sort_values("time")`: NaN sorts last, cells compare
by `cellLE`. -/
def sortKeyLE : Option Cell → Option Cell → Bool
  | none, _ => false
  | some _, none => true
  | some a, some b => cellLE a b

/-- Inserts an element into a list sorted by `le`, keeping it sorted. -/
def insertSorted {α : Type} (le : α → α → Bool) (a : α) : List α → List α
  | [] => [a]
  | b :: bs => if le b a then b :: insertSorted le a bs else a :: b :: bs

/-- Insertion sort by a Boolean comparison (the order among ties is a model
choice: pandas' default `sort_values` kind is an unstable quicksort, so the
source fixes no tie order either). -/
def sortBy {α : Type} (le : α → α → Bool) : List α → List α
  | [] => []
  | a :: as => insertSorted le a (sortBy le as)

/-- Embeds `out.sort_values("time").reset_index(drop=True)`: the rows are
permuted so that the `time` column is sorted; every column is reindexed by
the same permutation. -/
def sortByTime (cols : List (String × List (Option Cell))) : DataFrame :=
  let keys : List (Option Cell) :=
    match cols.find? (fun p => p.1 == "time") with
    | some p => p.2
    | none => []
  let perm : List Nat :=
    (sortBy (fun a b => sortKeyLE a.2 b.2) keys.enum).map (fun p => p.1)
  ⟨cols.map (fun p => (p.1, perm.map (fun i => (p.2[i]?).getD none)))⟩

/-- Embeds `fetch_tohlcv_yahoo` (yahoo.py).  The ticker is stripped and must
be non-blank (`ValueError` otherwise, before any request); the response must
be present and non-empty (`RuntimeError` otherwise, before any
normalization); then: flatten a MultiIndex to one ticker, normalize the
index to UTC, rename columns, assemble the `time/open/high/low/close/volume`
frame (`df.get` of an absent column broadcasts NaN), coerce volume to
numeric, and sort by time. -/
def fetch_tohlcv_yahoo (ticker : String) (resp : Option RawFrame) :
    Except PyError DataFrame :=
  let t := strippedTicker ticker
  if t.isEmpty then .error (.valueError "ticker vacío")
  else
    match resp with
    | none => .error (.runtimeError "Yahoo no devolvió datos")
    | some rf =>
      if rf.isEmpty then .error (.runtimeError "Yahoo no devolvió datos")
      else
        let flat : List (String × List (Option Cell)) :=
          match rf.rcols with
          | .flat cs => cs
          | .multi cs => flattenMulti t cs
        let timeCells : List (Option Cell) :=
          (normalizeIndexUTC rf.indexTz rf.index).map (fun c => some c)
        let renamed := flat.map (fun p => (renameCol p.1, p.2))
        let n := rf.index.length
        let getc : String → List (Option Cell) := fun c =>
          match renamed.find? (fun p => p.1 == c) with
          | some p => p.2
          | none => List.replicate n none
        .ok (sortByTime
          [("time", timeCells), ("open", getc "open"), ("high", getc "high"),
           ("low", getc "low"), ("close", getc "close"),
           ("volume", (getc "volume").map toNumericCoerce)])

/-! Output-path selection (cli.py `main`, saving section).  Only the
computation of the destination path is embedded: the start/end tags come
from the request when both bounds are truthy and otherwise from the first
and last `time` values of the downloaded frame; `--out` overrides
everything. -/

/-- Where `main` saves: an explicit `--out` path, or a built one. -/
inductive OutPath where
  | given (p : String)
  | built (p : List String)
deriving DecidableEq, Repr

/-- Python truthiness of the optional start/end strings in `main`. -/
def truthyStr (s : Option String) : Bool :=
  match s with
  | none => false
  | some str => !str.isEmpty

/-- Converts a day count since 1970-01-01 to a calendar date (civil-from-days
algorithm); models `Timestamp.date()` for a UTC instant counted in seconds. -/
def civilFromDays (z0 : Int) : Date :=
  let z := z0 + 719468
  let era := Int.fdiv z 146097
  let doe := (z - era * 146097).toNat
  let yoe := (doe - doe / 1460 + doe / 36524 - doe / 146096) / 365
  let doy := doe - (365 * yoe + yoe / 4 - yoe / 100)
  let mp := (5 * doy + 2) / 153
  let d := doy - (153 * mp + 2) / 5 + 1
  let m := if mp < 10 then mp + 3 else mp - 9
  let y := (era * 400 + yoe + (if m ≤ 2 then 1 else 0)).toNat
  ⟨y, m, d⟩

/-- Embeds `str(t.date())` for a `time` cell holding a timestamp counted in
seconds since the epoch (unreachable for non-timestamp cells in `main`,
which only sees validated fetched frames). -/
def cellDateStr (v : Option Cell) : String :=
  match v with
  | some (.ts t _) => formatDate (civilFromDays (Int.fdiv t 86400))
  | _ => ""

/-- Embeds the saving section of `main` (cli.py lines 240-264): tags from
`start`/`end` when both are truthy, otherwise from the downloaded data's
first and last `time` values; extension from the format; `if args.out:` is
Python truthiness, so only a non-`None`, non-empty `--out` overrides the
built path. -/
def outPathOfRun (outArg : Option String) (fmt ticker interval : String)
    (start end_ : Option String) (df : DataFrame) : OutPath :=
  let tags : String × String :=
    if truthyStr start && truthyStr end_ then
      (start.getD "", end_.getD "")
    else
      ((cellDateStr ((df.col "time").head?.getD none)),
       (cellDateStr ((df.col "time").getLast?.getD none)))
  let ext := if fmt == "parquet" then ".parquet" else ".csv"
  if truthyStr outArg then .given (outArg.getD "")
  else .built (build_outpath_fixed ticker interval tags.1 tags.2 ext FIXED_DATA_ROOT)

theorem nonAlnum_under : nonAlnum '_' = true := by decide

theorem isUnder_eq_false_of_nonAlnum_false {c : Char} (h : nonAlnum c = false) :
    isUnder c = false := by
  by_contra hc
  have hc' : c = '_' := by simpa [isUnder] using hc
  subst hc'
  exact absurd h (by decide)

theorem subRunsAux_under_collapse (l : List Char) :
    ∀ b, subRunsAux isUnder '_' b (subRunsAux nonAlnum '_' b l) =
      subRunsAux nonAlnum '_' b l := by
  induction l with
  | nil => intro b; simp [subRunsAux]
  | cons c cs ih =>
    intro b
    by_cases hc : nonAlnum c = true
    · cases b with
      | true =>
        simp [subRunsAux, hc]
        exact ih true
      | false =>
        have h1 : isUnder '_' = true := by decide
        simp [subRunsAux, hc, h1]
        exact ih true
    · have hc' : nonAlnum c = false := by simpa using hc
      have hu : isUnder c = false := isUnder_eq_false_of_nonAlnum_false hc'
      simp [subRunsAux, hc', hu]
      exact ih false

theorem dropWhile_subRunsAux_state (l : List Char) (b1 b2 : Bool) :
    (subRunsAux nonAlnum '_' b1 l).dropWhile isUnder =
      (subRunsAux nonAlnum '_' b2 l).dropWhile isUnder := by
  cases l with
  | nil => rfl
  | cons c cs =>
    by_cases hc : nonAlnum c = true
    · have h1 : isUnder '_' = true := by decide
      cases b1 <;> cases b2 <;> simp [subRunsAux, hc, List.dropWhile, h1]
    · have hc' : nonAlnum c = false := by simpa using hc
      cases b1 <;> cases b2 <;> simp [subRunsAux, hc']

theorem ws_nonAlnum {c : Char} (h : c.isWhitespace = true) : nonAlnum c = true := by
  have h2 : ((c = ' ' ∨ c = '\t') ∨ c = '\x0d') ∨ c = '\n' := by
    simpa [Char.isWhitespace] using h
  rcases h2 with ((h' | h') | h') | h' <;> subst h' <;> decide

theorem dropWhile_subRuns_dropWhile_ws (l : List Char) :
    (subRuns nonAlnum '_' (l.dropWhile Char.isWhitespace)).dropWhile isUnder =
      (subRuns nonAlnum '_' l).dropWhile isUnder := by
  induction l with
  | nil => rfl
  | cons c cs ih =>
    by_cases hw : c.isWhitespace = true
    · have hc := ws_nonAlnum hw
      have h1 : isUnder '_' = true := by decide
      rw [List.dropWhile_cons]
      simp only [hw, if_true]
      rw [ih]
      show (subRunsAux nonAlnum '_' false cs).dropWhile isUnder =
        (subRunsAux nonAlnum '_' false (c :: cs)).dropWhile isUnder
      rw [dropWhile_subRunsAux_state cs false true]
      simp [subRunsAux, hc, List.dropWhile, h1]
    · have hw' : c.isWhitespace = false := by simpa using hw
      rw [List.dropWhile_cons]
      simp [hw']

theorem subRunsAux_append (p : Char → Bool) (xs : List Char) :
    ∀ (b : Bool) (ys : List Char),
      subRunsAux p '_' b (xs ++ ys) =
        subRunsAux p '_' b xs ++ subRunsAux p '_' (runState p b xs) ys := by
  induction xs with
  | nil => intro b ys; rfl
  | cons c cs ih =>
    intro b ys
    by_cases hc : p c = true
    · cases b <;> simp [subRunsAux, hc, runState, ih]
    · have hc' : p c = false := by simpa using hc
      cases b <;> simp [subRunsAux, hc', runState, ih]

theorem stripEnds_append_under (x : List Char) :
    stripEnds isUnder (x ++ ['_']) = stripEnds isUnder x := by
  unfold stripEnds
  rw [List.dropWhile_append]
  by_cases he : (x.dropWhile isUnder).isEmpty = true
  · have h2 : List.dropWhile isUnder x = [] := by simpa [List.isEmpty_iff] using he
    have h3 : List.dropWhile isUnder ['_'] = [] := by decide
    simp [he, h2, h3]
  · have h2 : (x.dropWhile isUnder).isEmpty = false := by simpa using he
    have h1 : isUnder '_' = true := by decide
    simp [h2, List.reverse_append, List.dropWhile_cons, h1]

theorem stripEnds_subRuns_append_ws (l : List Char) (c : Char)
    (h : c.isWhitespace = true) :
    stripEnds isUnder (subRuns nonAlnum '_' (l ++ [c])) =
      stripEnds isUnder (subRuns nonAlnum '_' l) := by
  have hc := ws_nonAlnum h
  unfold subRuns
  rw [subRunsAux_append nonAlnum l false [c]]
  cases hb : runState nonAlnum false l with
  | true =>
    simp [subRunsAux, hc]
  | false =>
    have h2 : subRunsAux nonAlnum '_' false [c] = ['_'] := by
      simp [subRunsAux, hc]
    rw [h2, stripEnds_append_under]

theorem stripEnds_subRuns_dropWhileRight (m : List Char) :
    stripEnds isUnder (subRuns nonAlnum '_' (m.dropWhile Char.isWhitespace).reverse) =
      stripEnds isUnder (subRuns nonAlnum '_' m.reverse) := by
  induction m with
  | nil => rfl
  | cons c cs ih =>
    by_cases hw : c.isWhitespace = true
    · rw [List.dropWhile_cons]
      simp only [hw, if_true]
      rw [ih, List.reverse_cons]
      exact (stripEnds_subRuns_append_ws cs.reverse c hw).symm
    · have hw' : c.isWhitespace = false := by simpa using hw
      rw [List.dropWhile_cons]
      simp [hw']

theorem stripEnds_eq_of_dropWhile_eq {p : Char → Bool} {a b : List Char}
    (h : a.dropWhile p = b.dropWhile p) : stripEnds p a = stripEnds p b := by
  unfold stripEnds
  rw [h]

theorem sanitize_core_eq (s : String) :
    stripEnds isUnder (subRuns isUnder '_'
        (subRuns nonAlnum '_' (stripEnds Char.isWhitespace s.data))) =
      stripEnds isUnder (subRuns nonAlnum '_' s.data) := by
  rw [show subRuns isUnder '_' (subRuns nonAlnum '_' (stripEnds Char.isWhitespace s.data)) =
        subRuns nonAlnum '_' (stripEnds Char.isWhitespace s.data) from
    subRunsAux_under_collapse _ false]
  rw [show stripEnds Char.isWhitespace s.data =
        (((s.data.dropWhile Char.isWhitespace).reverse).dropWhile Char.isWhitespace).reverse
      from rfl]
  rw [stripEnds_subRuns_dropWhileRight (s.data.dropWhile Char.isWhitespace).reverse,
    List.reverse_reverse]
  exact stripEnds_eq_of_dropWhile_eq (dropWhile_subRuns_dropWhile_ws s.data)

theorem sanitize_token_eq_spec (s : String) : sanitize_token s = sanitizeSpec s := by
  simp only [sanitize_token, sanitizeSpec]
  rw [sanitize_core_eq s]

/-- C4: for every ticker, interval, start tag, end tag and extension,
`build_outpath_fixed` returns exactly the path
`data_root/S(ticker)/tohlcv/S(interval)/S(start)_S(end)ext`, where `S`
(`sanitizeSpec`, written from the claim) replaces every maximal run of
non-alphanumeric characters by a single underscore, strips leading and
trailing underscores, and falls back to the fixed token `"NA"` when nothing
alphanumeric remains.  Being an equation of a pure function, it also gives
that the same inputs always yield the same path. -/
theorem build_outpath_fixed_spec (ticker interval start_tag end_tag ext : String)
    (data_root : List String) :
    build_outpath_fixed ticker interval start_tag end_tag ext data_root =
      data_root ++ [sanitizeSpec ticker, "tohlcv", sanitizeSpec interval,
        sanitizeSpec start_tag ++ "_" ++ sanitizeSpec end_tag ++ ext] := by
  simp [build_outpath_fixed, sanitize_token_eq_spec]

theorem mem_subRunsAux {p : Char → Bool} {c : Char} (l : List Char) :
    ∀ b, c ∈ subRunsAux p '_' b l → c = '_' ∨ p c = false := by
  induction l with
  | nil => intro b h; simp [subRunsAux] at h
  | cons d ds ih =>
    intro b h
    by_cases hd : p d = true
    · cases b with
      | true =>
        rw [show subRunsAux p '_' true (d :: ds) = subRunsAux p '_' true ds by
          simp [subRunsAux, hd]] at h
        exact ih true h
      | false =>
        rw [show subRunsAux p '_' false (d :: ds) = '_' :: subRunsAux p '_' true ds by
          simp [subRunsAux, hd]] at h
        rcases List.mem_cons.mp h with h | h
        · exact Or.inl h
        · exact ih true h
    · have hd' : p d = false := by simpa using hd
      rw [show subRunsAux p '_' b (d :: ds) = d :: subRunsAux p '_' false ds by
        simp [subRunsAux, hd']] at h
      rcases List.mem_cons.mp h with h | h
      · subst h; exact Or.inr hd'
      · exact ih false h

theorem mem_stripEnds {p : Char → Bool} {c : Char} {l : List Char}
    (h : c ∈ stripEnds p l) : c ∈ l := by
  unfold stripEnds at h
  rw [List.mem_reverse] at h
  have h2 := (List.dropWhile_suffix p).subset h
  rw [List.mem_reverse] at h2
  exact (List.dropWhile_suffix p).subset h2

theorem head?_dropWhile_false {p : Char → Bool} {c : Char} (l : List Char)
    (h : (l.dropWhile p).head? = some c) : p c = false := by
  induction l with
  | nil => simp [List.dropWhile] at h
  | cons x xs ih =>
    rw [List.dropWhile_cons] at h
    split at h
    · exact ih h
    · simp_all

theorem head?_stripEnds_false {p : Char → Bool} {c : Char} (l : List Char)
    (h : (stripEnds p l).head? = some c) : p c = false := by
  unfold stripEnds at h
  have hpre : ((l.dropWhile p).reverse.dropWhile p).reverse <+: l.dropWhile p := by
    have h1 : ((l.dropWhile p).reverse.dropWhile p) <:+ (l.dropWhile p).reverse :=
      List.dropWhile_suffix p
    have h2 := @List.reverse_prefix Char ((l.dropWhile p).reverse.dropWhile p)
      (l.dropWhile p).reverse
    rw [List.reverse_reverse] at h2
    exact h2.mpr h1
  obtain ⟨t, ht⟩ := hpre
  rcases he : ((l.dropWhile p).reverse.dropWhile p).reverse with _ | ⟨a, as⟩
  · rw [he] at h; simp at h
  · rw [he] at h ht
    have hac : a = c := by simpa using h
    subst hac
    have hcw : (l.dropWhile p).head? = some a := by
      rw [← ht]; rfl
    exact head?_dropWhile_false l hcw

theorem getLast?_stripEnds_false {p : Char → Bool} {c : Char} (l : List Char)
    (h : (stripEnds p l).getLast? = some c) : p c = false := by
  unfold stripEnds at h
  rw [List.getLast?_reverse] at h
  exact head?_dropWhile_false _ h

theorem head?_subRunsAux_true {p : Char → Bool} {c : Char} (l : List Char)
    (h : (subRunsAux p '_' true l).head? = some c) : p c = false := by
  induction l with
  | nil => simp [subRunsAux] at h
  | cons d ds ih =>
    by_cases hd : p d = true
    · rw [show subRunsAux p '_' true (d :: ds) = subRunsAux p '_' true ds by
        simp [subRunsAux, hd]] at h
      exact ih h
    · have hd' : p d = false := by simpa using hd
      rw [show subRunsAux p '_' true (d :: ds) = d :: subRunsAux p '_' false ds by
        simp [subRunsAux, hd']] at h
      have : d = c := by simpa using h
      subst this
      exact hd'

theorem chain'_noDouble_subRunsAux (hpu : nonAlnum '_' = true) (l : List Char) :
    ∀ b, List.Chain' (fun a c => ¬(a = '_' ∧ c = '_'))
      (subRunsAux nonAlnum '_' b l) := by
  induction l with
  | nil => intro b; simp [subRunsAux]
  | cons d ds ih =>
    intro b
    by_cases hd : nonAlnum d = true
    · cases b with
      | true =>
        rw [show subRunsAux nonAlnum '_' true (d :: ds) = subRunsAux nonAlnum '_' true ds by
          simp [subRunsAux, hd]]
        exact ih true
      | false =>
        rw [show subRunsAux nonAlnum '_' false (d :: ds) =
            '_' :: subRunsAux nonAlnum '_' true ds by simp [subRunsAux, hd]]
        rcases he : subRunsAux nonAlnum '_' true ds with _ | ⟨a, as⟩
        · simp
        · rw [List.chain'_cons]
          constructor
          · intro hcon
            have ha : nonAlnum a = false := head?_subRunsAux_true ds (by rw [he]; rfl)
            rw [hcon.2] at ha
            rw [hpu] at ha
            exact absurd ha (by simp)
          · rw [← he]; exact ih true
    · have hd' : nonAlnum d = false := by simpa using hd
      rw [show subRunsAux nonAlnum '_' b (d :: ds) = d :: subRunsAux nonAlnum '_' false ds by
        simp [subRunsAux, hd']]
      rcases he : subRunsAux nonAlnum '_' false ds with _ | ⟨a, as⟩
      · simp
      · rw [List.chain'_cons]
        constructor
        · intro hcon
          rw [hcon.1] at hd'
          rw [hpu] at hd'
          exact absurd hd' (by simp)
        · rw [← he]; exact ih false

theorem chain'_noDouble_stripEnds {l : List Char}
    (h : List.Chain' (fun a c => ¬(a = '_' ∧ c = '_')) l) :
    List.Chain' (fun a c => ¬(a = '_' ∧ c = '_')) (stripEnds isUnder l) := by
  unfold stripEnds
  have h1 := h.suffix (List.dropWhile_suffix isUnder)
  have h2 : List.Chain' (flip (fun a c => ¬(a = '_' ∧ c = '_')))
      (l.dropWhile isUnder) := by
    exact h1.imp (fun a c hac => by intro hcon; exact hac ⟨hcon.2, hcon.1⟩)
  have h3 := List.chain'_reverse.mpr h2
  have h4 := h3.suffix (List.dropWhile_suffix isUnder)
  have h5 : List.Chain' (flip (fun a c => ¬(a = '_' ∧ c = '_')))
      ((l.dropWhile isUnder).reverse.dropWhile isUnder) := by
    exact h4.imp (fun a c hac => by intro hcon; exact hac ⟨hcon.2, hcon.1⟩)
  exact List.chain'_reverse.mpr h5

theorem subRunsAux_all_true {p : Char → Bool} (l : List Char)
    (h : ∀ c ∈ l, p c = true) : subRunsAux p '_' true l = [] := by
  induction l with
  | nil => rfl
  | cons d ds ih =>
    have hd : p d = true := h d (by simp)
    rw [show subRunsAux p '_' true (d :: ds) = subRunsAux p '_' true ds by
      simp [subRunsAux, hd]]
    exact ih (fun c hc => h c (by simp [hc]))

theorem subRuns_all_nonAlnum (l : List Char) (h : ∀ c ∈ l, nonAlnum c = true) :
    stripEnds isUnder (subRuns nonAlnum '_' l) = [] := by
  cases l with
  | nil => rfl
  | cons d ds =>
    have hd : nonAlnum d = true := h d (by simp)
    unfold subRuns
    rw [show subRunsAux nonAlnum '_' false (d :: ds) =
        '_' :: subRunsAux nonAlnum '_' true ds by simp [subRunsAux, hd]]
    rw [subRunsAux_all_true ds (fun c hc => h c (by simp [hc]))]
    decide

/-- C9: for every input string, `sanitize_token` returns a non-empty string
whose characters are all ASCII alphanumerics or underscores, with no
leading underscore, no trailing underscore and no two consecutive
underscores; and when the input has no alphanumeric character at all the
result is the literal token `"NA"`. -/
theorem sanitize_token_props (s : String) :
    sanitize_token s ≠ "" ∧
    (∀ c ∈ (sanitize_token s).data, isAlnumAscii c = true ∨ c = '_') ∧
    (sanitize_token s).data.head? ≠ some '_' ∧
    (sanitize_token s).data.getLast? ≠ some '_' ∧
    List.Chain' (fun a b => ¬(a = '_' ∧ b = '_')) (sanitize_token s).data ∧
    ((∀ c ∈ s.data, isAlnumAscii c = false) → sanitize_token s = "NA") := by
  rw [sanitize_token_eq_spec]
  simp only [sanitizeSpec]
  by_cases he : (stripEnds isUnder (subRuns nonAlnum '_' s.data)).isEmpty = true
  · rw [if_pos he]
    refine ⟨by decide, ?_, by decide, by decide,
      List.chain'_cons.mpr ⟨by decide, List.chain'_singleton _⟩, fun _ => rfl⟩
    intro c hc
    have : c = 'N' ∨ c = 'A' := by simpa using hc
    rcases this with h | h <;> subst h <;> exact Or.inl (by decide)
  · rw [if_neg he]
    have hne : stripEnds isUnder (subRuns nonAlnum '_' s.data) ≠ [] := by
      simpa [List.isEmpty_iff] using he
    refine ⟨?_, ?_, ?_, ?_, ?_, ?_⟩
    · intro hcon
      have : stripEnds isUnder (subRuns nonAlnum '_' s.data) = [] := by
        have := congrArg String.data hcon
        simpa using this
      exact hne this
    · intro c hc
      have hc' : c ∈ stripEnds isUnder (subRuns nonAlnum '_' s.data) := by
        simpa using hc
      rcases mem_subRunsAux s.data false (mem_stripEnds hc') with h | h
      · exact Or.inr h
      · exact Or.inl (by simpa [nonAlnum] using h)
    · intro hcon
      have : isUnder '_' = false := head?_stripEnds_false _ (by simpa using hcon)
      exact absurd this (by decide)
    · intro hcon
      have : isUnder '_' = false := getLast?_stripEnds_false _ (by simpa using hcon)
      exact absurd this (by decide)
    · have := chain'_noDouble_stripEnds
        (chain'_noDouble_subRunsAux (by decide) s.data false)
      simpa using this
    · intro hall
      have : stripEnds isUnder (subRuns nonAlnum '_' s.data) = [] :=
        subRuns_all_nonAlnum s.data (fun c hc => by simp [nonAlnum, hall c hc])
      exact absurd this hne

theorem dupCountAux_eq_zero (xs : List (Option Cell)) :
    ∀ seen, dupCountAux seen xs = 0 ↔
      (xs.Pairwise (fun a b => a ≠ b) ∧ ∀ a ∈ xs, a ∉ seen) := by
  induction xs with
  | nil => intro seen; simp [dupCountAux]
  | cons x rest ih =>
    intro seen
    have hstep : dupCountAux seen (x :: rest) =
        (if x ∈ seen then 1 else 0) + dupCountAux (x :: seen) rest := rfl
    rw [hstep, Nat.add_eq_zero, ih (x :: seen)]
    constructor
    · rintro ⟨h0, hpw, hseen⟩
      have hx : x ∉ seen := by
        intro hc
        rw [if_pos hc] at h0
        exact one_ne_zero h0
      constructor
      · rw [List.pairwise_cons]
        refine ⟨fun a ha hax => ?_, hpw⟩
        exact (hseen a ha) (by rw [← hax]; exact List.mem_cons_self x seen)
      · intro a ha
        rcases List.mem_cons.mp ha with h | h
        · subst h; exact hx
        · intro hc
          exact (hseen a h) (List.mem_cons_of_mem x hc)
    · rintro ⟨hpw, hseen⟩
      rw [List.pairwise_cons] at hpw
      have hx : x ∉ seen := hseen x (List.mem_cons_self x rest)
      refine ⟨by rw [if_neg hx], hpw.2, ?_⟩
      intro a ha hc
      rcases List.mem_cons.mp hc with h | h
      · exact (hpw.1 a ha) h.symm
      · exact (hseen a (List.mem_cons_of_mem x ha)) h

theorem dupCount_eq_zero_iff (xs : List (Option Cell)) :
    dupCount xs = 0 ↔ xs.Pairwise (fun a b => a ≠ b) := by
  rw [dupCount, dupCountAux_eq_zero xs []]
  simp

theorem chainLE_iff_chain' (xs : List (Option Cell)) (hnn : hasNaN xs = false) :
    (chainLE xs = true ↔ List.Chain' (fun a b => cmpOptLE a b = true) xs) := by
  induction xs with
  | nil => simp [chainLE]
  | cons x rest ih =>
    cases rest with
    | nil =>
      have hx : x.isSome = true := by
        cases x with
        | none => simp [hasNaN] at hnn
        | some c => rfl
      simp [chainLE, hx]
    | cons y rest2 =>
      have hnn2 : hasNaN (y :: rest2) = false := by
        simp only [hasNaN, List.any_cons, Bool.or_eq_false_iff] at hnn ⊢
        exact hnn.2
      rw [show chainLE (x :: y :: rest2) = (cmpOptLE x y && chainLE (y :: rest2)) from rfl]
      rw [List.chain'_cons, Bool.and_eq_true, ih hnn2]

/-- C2: `validate_tohlcv` raises an error if and only if a required column
is absent, the frame is empty, the `time` column has a missing value, the
`time` column has a duplicate value, the `time` column is not ascending, or
one of `open`/`high`/`low`/`close` is entirely missing.  The embedded
function is pure and returns `.ok ()` in every other case, so the frame is
never modified. -/
theorem validate_tohlcv_spec (df : DataFrame) :
    (∃ e, validate_tohlcv df = .error e) ↔
      ((∃ c ∈ REQUIRED_COLS, c ∉ df.columnNames) ∨
       df.isEmpty = true ∨
       (∃ v ∈ df.col "time", v = none) ∨
       ¬ (df.col "time").Pairwise (fun a b => a ≠ b) ∨
       ¬ List.Chain' (fun a b => cmpOptLE a b = true) (df.col "time") ∨
       (∃ c ∈ OHLC_COLS, ∀ v ∈ df.col c, v = none)) := by
  unfold validate_tohlcv
  split_ifs with h1 h2 h3 h4 h5 h6
  · refine iff_of_true ⟨_, rfl⟩ (Or.inl ?_)
    simpa [List.any_eq_true] using h1
  · exact iff_of_true ⟨_, rfl⟩ (Or.inr (Or.inl h2))
  · refine iff_of_true ⟨_, rfl⟩ (Or.inr (Or.inr (Or.inl ?_)))
    simpa [hasNaN, List.any_eq_true, Option.isNone_iff_eq_none] using h3
  · refine iff_of_true ⟨_, rfl⟩ (Or.inr (Or.inr (Or.inr (Or.inl ?_))))
    intro hpw
    have h0 : dupCount (df.col "time") = 0 := (dupCount_eq_zero_iff _).mpr hpw
    simp [h0] at h4
  · refine iff_of_true ⟨_, rfl⟩ (Or.inr (Or.inr (Or.inr (Or.inr (Or.inl ?_)))))
    intro hch
    have hnn : hasNaN (df.col "time") = false := by simpa using h3
    have hc2 := (chainLE_iff_chain' _ hnn).mpr hch
    simp [hc2] at h5
  · refine iff_of_true ⟨_, rfl⟩ (Or.inr (Or.inr (Or.inr (Or.inr (Or.inr ?_)))))
    have h6' : ∃ c ∈ OHLC_COLS, allNaN (df.col c) = true := by
      simpa [List.any_eq_true] using h6
    obtain ⟨c, hc, hall⟩ := h6'
    refine ⟨c, hc, ?_⟩
    simpa [allNaN, List.all_eq_true, Option.isNone_iff_eq_none] using hall
  · apply iff_of_false
    · rintro ⟨e, he⟩
      simp at he
    · rintro (d | d | d | d | d | d)
      · refine absurd ?_ h1
        simpa [List.any_eq_true] using d
      · exact h2 d
      · refine absurd ?_ h3
        simpa [hasNaN, List.any_eq_true, Option.isNone_iff_eq_none] using d
      · exact d ((dupCount_eq_zero_iff _).mp (by simpa using h4))
      · have hnn : hasNaN (df.col "time") = false := by simpa using h3
        exact d ((chainLE_iff_chain' _ hnn).mp (by simpa using h5))
      · refine absurd ?_ h6
        obtain ⟨c, hc, hall⟩ := d
        simp only [List.any_eq_true]
        refine ⟨c, hc, ?_⟩
        simpa [allNaN, List.all_eq_true, Option.isNone_iff_eq_none] using hall

theorem cmpOptLT_of_le_ne {a b : Option Cell} (hle : cmpOptLE a b = true)
    (hne : a ≠ b) : cmpOptLT a b = true := by
  cases a with
  | none => simp [cmpOptLE] at hle
  | some x =>
    cases b with
    | none => simp [cmpOptLE] at hle
    | some y =>
      simp only [cmpOptLE] at hle
      simp only [cmpOptLT]
      have hxy : x ≠ y := fun hc => hne (by rw [hc])
      cases x with
      | num u =>
        cases y with
        | num v =>
          simp only [cellLE, decide_eq_true_eq] at hle
          simp only [cellLT, decide_eq_true_eq]
          exact lt_of_le_of_ne hle (fun hc => hxy (by rw [hc]))
        | ts v w => simp [cellLE] at hle
      | ts u aw =>
        cases y with
        | num v => simp [cellLE] at hle
        | ts v aw2 =>
          simp only [cellLE] at hle
          simp only [cellLT]
          by_cases haw : aw = aw2
          · subst haw
            rw [if_pos rfl] at hle ⊢
            simp only [decide_eq_true_eq] at hle ⊢
            refine lt_of_le_of_ne hle (fun hc => hxy (by rw [hc]))
          · rw [if_neg haw] at hle
            exact absurd hle (by simp)

/-- C3: on every frame that `validate_tohlcv` accepts, the `time` column is
strictly ascending — each entry is strictly greater than its predecessor
(the duplicate check together with the monotonicity check rules out equal
neighbours). -/
theorem validate_time_strict (df : DataFrame)
    (h : validate_tohlcv df = .ok ()) :
    List.Chain' (fun a b => cmpOptLT a b = true) (df.col "time") := by
  unfold validate_tohlcv at h
  split_ifs at h with h1 h2 h3 h4 h5 h6
  have hnn : hasNaN (df.col "time") = false := by simpa using h3
  have hch : chainLE (df.col "time") = true := by simpa using h5
  have hpw : (df.col "time").Pairwise (fun a b => a ≠ b) :=
    (dupCount_eq_zero_iff _).mp (by simpa using h4)
  have hch' := (chainLE_iff_chain' _ hnn).mp hch
  rw [List.chain'_iff_get] at hch' ⊢
  intro i hi
  refine cmpOptLT_of_le_ne (hch' i hi) ?_
  have hlen : i < (df.col "time").length := by omega
  have hlen2 : i + 1 < (df.col "time").length := by omega
  exact List.pairwise_iff_get.mp hpw ⟨i, hlen⟩ ⟨i + 1, hlen2⟩
    (by simp [Fin.lt_def])

theorem fix_eval (parse : String → Option Date) (ss es : String)
    (hf : (pyFalsy (some ss) || pyFalsy (some es)) = false) (ds de : Date)
    (hps : parse ss = some ds) (hpe : parse es = some de) :
    fix_same_day_range_with parse (some ss) (some es) =
      (if ds = de then
        (match nextDate de with
         | some d2 => .ok (some ss, some (formatDate d2),
             some (sameDayWarn es (formatDate d2)))
         | none => .error (.overflowError "date value out of range"))
       else .ok (some ss, some es, none)) := by
  unfold fix_same_day_range_with
  rw [hf]
  simp only [Bool.false_eq_true, if_false]
  rw [hps, hpe]

/-- Counterexample to C1 as stated, in two parts.  Overflow: `"9999-12-31"`
parses as a YYYY-MM-DD date and start = end denote the same day, yet the
function does not return the advanced end — `de + timedelta(days=1)` sits
outside the `try` block and raises `OverflowError` (year 10000 exceeds
`datetime.MAXYEAR`).  Parser breadth: the start `"2024-02-28T00:00"` does
not parse as a YYYY-MM-DD date (it is an ISO datetime), so the claim puts
the pair in its "returned unchanged with no warning" branch, yet
`isoparse` accepts it, its `.date()` equals the end's day, and the program
advances the end to 2024-02-29 with a warning. -/
theorem fix_same_day_range_cex :
    ((parseDateYMD "9999-12-31").isSome = true ∧
     fix_same_day_range (some "9999-12-31") (some "9999-12-31") =
       .error (.overflowError "date value out of range")) ∧
    (parseDateYMD "2024-02-28T00:00" = none ∧
     isoparseDate "2024-02-28T00:00" = some ⟨2024, 2, 28⟩ ∧
     fix_same_day_range (some "2024-02-28T00:00") (some "2024-02-28") =
       .ok (some "2024-02-28T00:00", some "2024-02-29",
         some (sameDayWarn "2024-02-28" "2024-02-29"))) := by
  refine ⟨⟨by decide, by rfl⟩, by decide, by decide, by rfl⟩

theorem sameDayOfWith_some {parse : String → Option Date}
    {start end_ : Option String} {d : Date}
    (h : sameDayOfWith parse start end_ = some d) :
    ∃ ss es, start = some ss ∧ end_ = some es ∧
      (pyFalsy (some ss) || pyFalsy (some es)) = false ∧
      parse ss = some d ∧ parse es = some d := by
  cases start with
  | none => simp [sameDayOfWith, pyFalsy] at h
  | some ss =>
    cases end_ with
    | none => simp [sameDayOfWith, pyFalsy] at h
    | some es =>
      simp only [sameDayOfWith] at h
      by_cases hf : (pyFalsy (some ss) || pyFalsy (some es)) = true
      · rw [if_pos hf] at h
        simp at h
      · have hf' : (pyFalsy (some ss) || pyFalsy (some es)) = false := by
          simpa using hf
        refine ⟨ss, es, rfl, rfl, hf', ?_⟩
        rw [hf'] at h
        simp only [Bool.false_eq_true, if_false] at h
        rcases hps : parse ss with _ | ds
        · rw [hps] at h; simp at h
        · rcases hpe : parse es with _ | de
          · rw [hps, hpe] at h; simp at h
          · rw [hps, hpe] at h
            change (if ds = de then some ds else none) = some d at h
            by_cases heq : ds = de
            · rw [if_pos heq] at h
              have hdd : ds = d := by simpa using h
              constructor
              · rw [hdd]
              · rw [← heq, hdd]
            · rw [if_neg heq] at h; simp at h

/-- C1 (amended): stated uniformly in the date parser `parse` (the library
behaviour of `isoparse(s).date()`, with `none` for any exception), so it
holds for the program with dateutil's actual parser.  Whenever both bounds
are truthy and parse to the same calendar day, `_fix_same_day_range`
returns the start unchanged, the end advanced by one day (formatted
YYYY-MM-DD) and a warning — except that when the shared day is 9999-12-31
(no representable successor) it raises an overflow error; every other
pair (different days, a missing or empty value, or a value the parser
rejects) is returned unchanged with no warning.  The parser accepts
general ISO-8601 strings, not only plain YYYY-MM-DD ones (see the
counterexample). -/
theorem fix_same_day_range_amended (parse : String → Option Date)
    (start end_ : Option String) :
    (∀ d d2, sameDayOfWith parse start end_ = some d → nextDate d = some d2 →
      fix_same_day_range_with parse start end_ =
        .ok (start, some (formatDate d2),
          some (sameDayWarn (end_.getD "") (formatDate d2)))) ∧
    (∀ d, sameDayOfWith parse start end_ = some d → nextDate d = none →
      fix_same_day_range_with parse start end_ =
        .error (.overflowError "date value out of range")) ∧
    (sameDayOfWith parse start end_ = none →
      fix_same_day_range_with parse start end_ = .ok (start, end_, none)) := by
  refine ⟨?_, ?_, ?_⟩
  · intro d d2 hsd hnext
    obtain ⟨ss, es, rfl, rfl, hf, hps, hpe⟩ := sameDayOfWith_some hsd
    rw [fix_eval parse ss es hf d d hps hpe, if_pos rfl, hnext]
    rfl
  · intro d hsd hnext
    obtain ⟨ss, es, rfl, rfl, hf, hps, hpe⟩ := sameDayOfWith_some hsd
    rw [fix_eval parse ss es hf d d hps hpe, if_pos rfl, hnext]
  · intro hnone
    by_cases hf : (pyFalsy start || pyFalsy end_) = true
    · unfold fix_same_day_range_with
      rw [if_pos hf]
    · have hf0 : (pyFalsy start || pyFalsy end_) = false := by simpa using hf
      cases start with
      | none => simp [pyFalsy] at hf0
      | some ss =>
        cases end_ with
        | none => simp [pyFalsy] at hf0
        | some es =>
          simp only [sameDayOfWith] at hnone
          rw [hf0] at hnone
          simp only [Bool.false_eq_true, if_false] at hnone
          rcases hps : parse ss with _ | ds
          · simp only [fix_same_day_range_with]
            rw [hf0]
            simp only [Bool.false_eq_true, if_false]
            rw [hps]
          · rcases hpe : parse es with _ | de
            · simp only [fix_same_day_range_with]
              rw [hf0]
              simp only [Bool.false_eq_true, if_false]
              rw [hps, hpe]
            · rw [hps, hpe] at hnone
              change (if ds = de then some ds else none) = none at hnone
              by_cases heq : ds = de
              · rw [if_pos heq] at hnone; simp at hnone
              · rw [fix_eval parse ss es hf0 ds de hps hpe, if_neg heq]

/-- Counterexample to C5 as stated: for a MultiIndex response whose only
ticker level is `"MSFT"`, requesting `"AAPL"` does not reduce the columns
to those of the requested ticker — the code falls back to the first ticker
present instead. -/
theorem flattenMulti_requested_cex :
    flattenMulti "AAPL" [(("Open", "MSFT"), [some (Cell.num 9)])] ≠
      selectRequested "AAPL" [(("Open", "MSFT"), [some (Cell.num 9)])] := by
  decide

/-- C5 (amended): for every provider response whose columns form a
multi-level index, the fetch reduces the columns to those of the single
requested ticker whenever that ticker occurs in the last column level;
when it does not, the columns are reduced to those of the first ticker
listed there. -/
theorem flattenMulti_amended (ticker : String)
    (cs : List ((String × String) × List (Option Cell))) :
    (ticker ∈ lastLevel cs → flattenMulti ticker cs = selectRequested ticker cs) ∧
    (∀ t0 rest, ticker ∉ lastLevel cs → lastLevel cs = t0 :: rest →
      flattenMulti ticker cs = selectRequested t0 cs) := by
  constructor
  · intro h
    have hb : (lastLevel cs).contains ticker = true := by simpa using h
    unfold flattenMulti
    rw [if_pos hb]
    rfl
  · intro t0 rest hnot hlev
    have hb : ¬((lastLevel cs).contains ticker = true) := by simpa using hnot
    unfold flattenMulti
    rw [if_neg hb, hlev]
    rfl

/-- Witness for C5: when the requested ticker is present in the last
level, exactly its columns are selected. -/
theorem flattenMulti_amended_witness :
    flattenMulti "AAPL" [(("Open", "AAPL"), [some (Cell.num 3)])] =
      selectRequested "AAPL" [(("Open", "AAPL"), [some (Cell.num 3)])] :=
  (flattenMulti_amended "AAPL" [(("Open", "AAPL"), [some (Cell.num 3)])]).1 (by decide)

/-- Counterexample to C7 as stated: with no explicit output path and no
start/end bounds, two runs with identical request parameters but provider
data one day apart write to different paths — the start/end tags are taken
from the downloaded data. -/
theorem outPath_data_dependent_cex :
    outPathOfRun none "parquet" "AAPL" "1h" none none
        ⟨[("time", [some (Cell.ts 0 true)])]⟩ ≠
      outPathOfRun none "parquet" "AAPL" "1h" none none
        ⟨[("time", [some (Cell.ts 86400 true)])]⟩ := by
  decide

/-- C7 (amended): the output path is independent of the downloaded data
whenever both start and end are provided (non-empty) or a truthy (non-empty)
`--out` path is given; otherwise the path's start/end tags are derived from
the first and last timestamps of the downloaded frame. -/
theorem outPath_params_only (outArg : Option String) (fmt ticker interval : String)
    (start end_ : Option String) (df1 df2 : DataFrame)
    (h : (truthyStr start = true ∧ truthyStr end_ = true) ∨ truthyStr outArg = true) :
    outPathOfRun outArg fmt ticker interval start end_ df1 =
      outPathOfRun outArg fmt ticker interval start end_ df2 := by
  rcases h with ⟨hs, he⟩ | ho
  · simp [outPathOfRun, hs, he]
  · simp [outPathOfRun, ho]

/-- Witness for C7: with both bounds given, two runs with different data
save to the same path. -/
theorem outPath_params_only_witness :
    outPathOfRun none "parquet" "AAPL" "1h" (some "2025-01-01") (some "2025-01-02")
        ⟨[("time", [some (Cell.ts 0 true)])]⟩ =
      outPathOfRun none "parquet" "AAPL" "1h" (some "2025-01-01") (some "2025-01-02")
        ⟨[("time", [some (Cell.ts 86400 true)])]⟩ :=
  outPath_params_only none "parquet" "AAPL" "1h" (some "2025-01-01")
    (some "2025-01-02") _ _ (Or.inl ⟨by decide, by decide⟩)

/-- C8: `fetch_tohlcv_yahoo` raises `ValueError` whenever the ticker,
stripped of Unicode whitespace as `str.strip()` does, is empty (the
response parameter is universally quantified, so this happens
independently of — hence before — any request), and raises `RuntimeError`
whenever the provider returns no data (a missing or empty frame), before
any normalization result is produced. -/
theorem fetch_guard_errors (ticker : String) (resp : Option RawFrame) :
    ((strippedTicker ticker).isEmpty = true →
      fetch_tohlcv_yahoo ticker resp = .error (.valueError "ticker vacío")) ∧
    ((strippedTicker ticker).isEmpty = false →
      (resp = none ∨ ∃ rf, resp = some rf ∧ rf.isEmpty = true) →
      fetch_tohlcv_yahoo ticker resp =
        .error (.runtimeError "Yahoo no devolvió datos")) := by
  constructor
  · intro h
    simp [fetch_tohlcv_yahoo, h]
  · intro h hr
    rcases hr with rfl | ⟨rf, rfl, hrf⟩
    · simp [fetch_tohlcv_yahoo, h]
    · simp [fetch_tohlcv_yahoo, h, hrf]

/-- Witness for C8: a ticker consisting of a vertical tab (whitespace to
`str.strip()` though not to ASCII-only classes) raises `ValueError`; a
missing response raises `RuntimeError`. -/
theorem fetch_guard_errors_witness :
    fetch_tohlcv_yahoo "\x0b" none = .error (.valueError "ticker vacío") ∧
    fetch_tohlcv_yahoo "AAPL" none =
      .error (.runtimeError "Yahoo no devolvió datos") :=
  ⟨(fetch_guard_errors "\x0b" none).1 (by decide),
   (fetch_guard_errors "AAPL" none).2 (by decide) (Or.inl rfl)⟩

/-- C10: `save_df` writes the frame when and only when the path's
extension, compared case-insensitively, is `.parquet` (written as parquet)
or `.csv` (written as csv); for every other extension it raises
`ValueError` and writes nothing. -/
theorem save_df_spec (path : List String) :
    (lowerStr (pySuffix ((path.getLast?).getD "")) = ".parquet" →
      save_df path = .ok .parquet) ∧
    (lowerStr (pySuffix ((path.getLast?).getD "")) = ".csv" →
      save_df path = .ok .csv) ∧
    (lowerStr (pySuffix ((path.getLast?).getD "")) ≠ ".parquet" →
      lowerStr (pySuffix ((path.getLast?).getD "")) ≠ ".csv" →
      save_df path = .error (.valueError "Extensión no soportada")) := by
  refine ⟨?_, ?_, ?_⟩
  · intro h
    simp [save_df, h]
  · intro h
    have h1 : lowerStr (pySuffix ((path.getLast?).getD "")) ≠ ".parquet" := by
      rw [h]; decide
    simp [save_df, h, h1]
  · intro h1 h2
    simp [save_df, h1, h2]

/-- Witness for C10: `.PARQUET` and `.Csv` are accepted case-insensitively
and `.txt` is rejected. -/
theorem save_df_spec_witness :
    save_df ["data", "out.PARQUET"] = .ok .parquet ∧
    save_df ["data", "out.Csv"] = .ok .csv ∧
    save_df ["data", "out.txt"] = .error (.valueError "Extensión no soportada") :=
  ⟨(save_df_spec ["data", "out.PARQUET"]).1 (by decide),
   (save_df_spec ["data", "out.Csv"]).2.1 (by decide),
   (save_df_spec ["data", "out.txt"]).2.2 (by decide) (by decide)⟩

theorem fst_lt_of_mem_enum {α : Type} {p : Nat × α} {l : List α}
    (h : p ∈ l.enum) : p.1 < l.length := by
  rw [List.enum_eq_zip_range] at h
  rcases p with ⟨i, a⟩
  have := List.of_mem_zip h
  exact List.mem_range.mp this.1

theorem mem_normalizeIndexUTC {c : Cell} {tz : Bool} {idx : List Int}
    (h : c ∈ normalizeIndexUTC tz idx) : ∃ x, c = Cell.ts x true := by
  unfold normalizeIndexUTC at h
  split at h <;>
  · rw [List.mem_map] at h
    obtain ⟨x, _, rfl⟩ := h
    exact ⟨x, rfl⟩

theorem sortByTime_columnNames (cols : List (String × List (Option Cell))) :
    (sortByTime cols).columnNames = cols.map Prod.fst := by
  simp [sortByTime, DataFrame.columnNames, List.map_map, Function.comp]

theorem mem_insertSorted {α : Type} {le : α → α → Bool} {v a : α} (l : List α)
    (h : v ∈ insertSorted le a l) : v = a ∨ v ∈ l := by
  induction l with
  | nil =>
    have hva : v = a := by simpa [insertSorted] using h
    exact Or.inl hva
  | cons b bs ih =>
    unfold insertSorted at h
    split at h
    · rcases List.mem_cons.mp h with h | h
      · exact Or.inr (by simp [h])
      · rcases ih h with h | h
        · exact Or.inl h
        · exact Or.inr (by simp [h])
    · rcases List.mem_cons.mp h with h | h
      · exact Or.inl h
      · exact Or.inr h

theorem mem_sortBy {α : Type} {le : α → α → Bool} {v : α} (l : List α)
    (h : v ∈ sortBy le l) : v ∈ l := by
  induction l with
  | nil => simp [sortBy] at h
  | cons a as ih =>
    unfold sortBy at h
    rcases mem_insertSorted _ h with h | h
    · simp [h]
    · exact List.mem_cons_of_mem a (ih h)

theorem mem_permuted (keys vals : List (Option Cell))
    (le : Nat × Option Cell → Nat × Option Cell → Bool) (v : Option Cell)
    (hv : v ∈ ((sortBy le keys.enum).map (fun p => p.1)).map
      (fun i => (vals[i]?).getD none))
    (hlen : keys.length = vals.length) :
    v ∈ vals := by
  rw [List.mem_map] at hv
  obtain ⟨i, hi, rfl⟩ := hv
  rw [List.mem_map] at hi
  obtain ⟨pr, hpr, rfl⟩ := hi
  have hmem : pr ∈ keys.enum := mem_sortBy _ hpr
  have hlt : pr.1 < vals.length := by
    rw [← hlen]
    exact fst_lt_of_mem_enum hmem
  rw [List.getElem?_eq_getElem hlt]
  exact List.getElem_mem hlt

theorem sortByTime_col_time (tc o hi lo cl vo : List (Option Cell)) :
    (sortByTime [("time", tc), ("open", o), ("high", hi), ("low", lo),
      ("close", cl), ("volume", vo)]).col "time" =
    ((sortBy (fun a b => sortKeyLE a.2 b.2) tc.enum).map (fun p => p.1)).map
      (fun i => (tc[i]?).getD none) := by
  simp [sortByTime, DataFrame.col]

/-- C6: every frame returned by `fetch_tohlcv_yahoo` (hence for every
non-empty provider response on which it succeeds) has exactly the columns
`time, open, high, low, close, volume`, and every value in its `time`
column is a timezone-aware UTC timestamp — a naive provider index was
localized to UTC and an aware one converted to UTC. -/
theorem fetch_schema_utc (ticker : String) (resp : Option RawFrame)
    (df : DataFrame) (h : fetch_tohlcv_yahoo ticker resp = .ok df) :
    df.columnNames = REQUIRED_COLS ∧
    (∀ v ∈ df.col "time", ∃ x, v = some (Cell.ts x true)) := by
  rcases resp with _ | rf
  · by_cases h1 : (strippedTicker ticker).isEmpty = true <;>
      simp [fetch_tohlcv_yahoo, h1] at h
  · by_cases h1 : (strippedTicker ticker).isEmpty = true
    · simp [fetch_tohlcv_yahoo, h1] at h
    · by_cases h2 : rf.isEmpty = true
      · simp [fetch_tohlcv_yahoo, h1, h2] at h
      · simp only [fetch_tohlcv_yahoo, h1, h2, Bool.false_eq_true, if_false,
          Except.ok.injEq] at h
        subst h
        constructor
        · rw [sortByTime_columnNames]
          rfl
        · intro v hv
          rw [sortByTime_col_time] at hv
          have hvm := mem_permuted _ _ _ v hv rfl
          rw [List.mem_map] at hvm
          obtain ⟨c, hc, rfl⟩ := hvm
          obtain ⟨x, rfl⟩ := mem_normalizeIndexUTC hc
          exact ⟨x, rfl⟩

/-- Witness for C1: a leap-day request 2024-02-28/2024-02-28 is advanced
to end 2024-02-29 with a warning, and a two-day range is left unchanged. -/
theorem fix_same_day_range_amended_witness :
    fix_same_day_range_with isoparseDate (some "2024-02-28") (some "2024-02-28") =
      .ok (some "2024-02-28", some (formatDate ⟨2024, 2, 29⟩),
        some (sameDayWarn ((some "2024-02-28" : Option String).getD "")
          (formatDate ⟨2024, 2, 29⟩))) ∧
    fix_same_day_range_with isoparseDate (some "2024-02-28") (some "2024-03-01") =
      .ok (some "2024-02-28", some "2024-03-01", none) :=
  ⟨(fix_same_day_range_amended isoparseDate
        (some "2024-02-28") (some "2024-02-28")).1
      ⟨2024, 2, 28⟩ ⟨2024, 2, 29⟩ (by decide) (by decide),
   (fix_same_day_range_amended isoparseDate
        (some "2024-02-28") (some "2024-03-01")).2.2
      (by decide)⟩

/-- Witness for C2: an empty frame (missing every column) is rejected. -/
theorem validate_tohlcv_spec_witness :
    (validate_tohlcv ⟨[]⟩).isOk = false := by
  obtain ⟨e, he⟩ :=
    (validate_tohlcv_spec ⟨[]⟩).mpr (Or.inl ⟨"time", by decide, by decide⟩)
  rw [he]
  rfl

/-- Witness for C3: a concrete two-row frame accepted by the validator has
a strictly ascending time column. -/
theorem validate_time_strict_witness :
    List.Chain' (fun a b => cmpOptLT a b = true)
      ((⟨[("time", [some (Cell.ts 0 true), some (Cell.ts 3600 true)]),
          ("open", [some (Cell.num 1), some (Cell.num 2)]),
          ("high", [some (Cell.num 1), some (Cell.num 2)]),
          ("low", [some (Cell.num 1), some (Cell.num 2)]),
          ("close", [some (Cell.num 1), some (Cell.num 2)]),
          ("volume", [some (Cell.num 5), some (Cell.num 6)])]⟩ :
        DataFrame).col "time") :=
  validate_time_strict _ (by rfl)

/-- Witness for C6: a concrete two-row response yields exactly the
canonical columns. -/
theorem fetch_schema_utc_witness :
    (⟨[("time", [some (Cell.ts 0 true), some (Cell.ts 86400 true)]),
       ("open", [some (Cell.num 7), some (Cell.num 5)]),
       ("high", [none, none]), ("low", [none, none]), ("close", [none, none]),
       ("volume", [none, some (Cell.num 100)])]⟩ : DataFrame).columnNames =
      REQUIRED_COLS :=
  (fetch_schema_utc "AAPL"
    (some ⟨false, [86400, 0],
      RawCols.flat [("Open", [some (Cell.num 5), some (Cell.num 7)]),
        ("Volume", [some (Cell.num 100), none])]⟩) _ (by rfl)).1

/-- Witness for C9: the all-symbol input `"--!!"` sanitizes to `"NA"`. -/
theorem sanitize_token_props_witness :
    sanitize_token "--!!" = "NA" :=
  (sanitize_token_props "--!!").2.2.2.2.2 (by decide)
